import Mathlib

/-!
Verification development for the gdalcubes chunked cube evaluation engine.

Shallow embedding conventions:
* IEEE double values are modelled exactly as rationals; `NaN` is `Option.none`
  (the engine treats every non-finite value as missing, never as an error).
* Machine integers (`uint16_t`, `uint32_t` counters, chunk ids) are `Nat`;
  datetimes and durations, after casting to a common unit, are `Int` counts.
* The GDAL raster facility, the image-collection catalog and the warp step are
  external collaborators; a chunk read receives their outcome as an explicit
  list of already-warped images.
-/

namespace GdalCubes

/-- Pixel value of a float64 buffer cell; `none` models NaN (missing). -/
abbrev Val := Option ℚ

/-! ## Data model: chunk buffers (chunk.h / chunk_data)

A chunk buffer is a densely packed band-major array `[nb, nt, ny, nx]`.
The two spatial dimensions are merged into a single pixel dimension
(`npix = ny * nx`), since every modelled loop iterates the `y`/`x` plane as one
flat range (`for i < size[2]*size[3]`). An empty chunk has a null buffer and
size zero. -/

/-- Chunk buffer: size `(bands, time, pixels-per-plane)` and an optional
band-major nested buffer; `buf = none` is the null buffer of an empty chunk. -/
structure chunk_data where
  size : Nat × Nat × Nat
  buf : Option (List (List (List Val)))
deriving DecidableEq

/-- Default-constructed `chunk_data`: size zero, null buffer (an empty chunk). -/
def chunk_data.empty : chunk_data := ⟨(0, 0, 0), none⟩

/-! ## Temporal aggregation state machines (src/chunking.cpp:22-143) -/

/-- State of `aggregation_state_mean` for one `(band, time-slot)` cell:
`img_count` is `_img_count[b][t]` (`0` encodes a missing map entry) and
`val_count` is `_val_count[b][t]` (`none` until the per-pixel counter buffer is
allocated on the second image). -/
structure aggregation_state_mean_cell where
  img_count : Nat
  val_count : Option (List Nat)
deriving DecidableEq

/-- Fresh aggregation state: both hash maps have no entry for the cell. -/
def aggregation_state_mean_cell.init : aggregation_state_mean_cell := ⟨0, none⟩

/-- Per-pixel body of the `aggregation_state_mean::update` loop
(src/chunking.cpp:62-71): NaN image pixels are skipped, a NaN chunk cell adopts
the image value, and otherwise `sum = chunk*n + chunk` is divided by the
incremented counter (the image value `v` does not appear in `sum`). -/
def mean_pixel_update (n : Nat) (c v : Val) : Nat × Val :=
  match v with
  | none => (n, c)
  | some vq =>
    match c with
    | none => (n, some vq)
    | some cq => (n + 1, some ((cq * (n : ℚ) + cq) / ((n : ℚ) + 1)))

/-- The `aggregation_state_mean::update` member (src/chunking.cpp:41-73) for one
`(b, t)` cell: the first image for the cell is copied verbatim (memcpy);
subsequent images bump `_img_count`, lazily allocate the per-pixel counter
buffer filled with the current `_img_count`, and run the per-pixel loop. -/
def aggregation_state_mean_update (s : aggregation_state_mean_cell)
    (chunk img : List Val) : aggregation_state_mean_cell × List Val :=
  if s.img_count = 0 then
    ({ img_count := 1, val_count := s.val_count }, img)
  else
    let ic := s.img_count + 1
    let vc := s.val_count.getD (List.replicate chunk.length ic)
    let upd := (vc.zip (chunk.zip img)).map (fun p => mean_pixel_update p.1 p.2.1 p.2.2)
    (⟨ic, some (upd.map Prod.fst)⟩, upd.map Prod.snd)

/-- Feed a sequence of warped image planes for one `(band, time-slot)` cell to
the mean temporal aggregator, starting from the calloc-zeroed chunk plane of
`default_chunking::read` (src/chunking.cpp:170), and return the final plane. -/
def mean_aggregate (imgs : List (List Val)) (npix : Nat) : List Val :=
  (imgs.foldl (fun p img => aggregation_state_mean_update p.1 p.2 img)
    (aggregation_state_mean_cell.init, List.replicate npix (some 0))).2

/-! ## Reference frame (cube_st_reference) and the reduce constructor -/

/-- Spatiotemporal reference: grid size, temporal range `[t0, t1]` and step
`dt`, with datetimes/durations as integer counts at a common unit. -/
structure cube_st_reference where
  nx : Nat
  ny : Nat
  t0 : Int
  t1 : Int
  dt : Int
deriving DecidableEq

/-- Modelled from the spec: `cube_st_reference::nt` is absent from src/
(cube.h is not part of the sources); §3 defines `nt` as the number of whole
`δt` steps in `[t0, t1]` inclusive of `t0`, i.e. `(t1 - t0) / dt + 1`. -/
def cube_st_reference.nt (s : cube_st_reference) : Int :=
  (s.t1 - s.t0) / s.dt + 1

/-- Reference-frame transform of the `reduce_cube` constructor
(src/unnamed/part_000:45-47): first `dt := t1 - t0`, then `t1 := t0`. -/
def reduce_cube_ctor (s : cube_st_reference) : cube_st_reference :=
  { s with dt := s.t1 - s.t0, t1 := s.t0 }

/-- Modelled from the spec: the `reduce_time_cube` constructor is absent from
src/ (reduce_time.h is not part of the sources); §4.4 gives its output
geometry — same `(x, y)` grid, `t1 = t0` and `δt` set to the input's full
temporal span — which coincides with the in-src `reduce_cube` constructor. -/
def reduce_time_cube_geom (s : cube_st_reference) : cube_st_reference :=
  { s with dt := s.t1 - s.t0, t1 := s.t0 }

/-- Modelled from the spec: output geometry of the reduce-over-space operator
per §4.5 — the time axis is kept and `nx = ny = 1`. This is the geometry the
spec claims for the `reduce_space` discriminator; it is compared against what
the factory actually constructs. -/
def reduce_space_geom_spec (s : cube_st_reference) : cube_st_reference :=
  { s with nx := 1, ny := 1 }

/-- Reference-frame effect of `cube_factory::register_default`
(src/unnamed/part_005:53-69) for the reduce-family discriminators: `"reduce"`
calls `reduce_cube::create`, while both `"reduce_time"` and `"reduce_space"`
call `reduce_time_cube::create`. Other discriminators are not modelled. -/
def cube_factory_create_geom (cube_type : String) (s : cube_st_reference) :
    Option cube_st_reference :=
  if cube_type = "reduce" then some (reduce_cube_ctor s)
  else if cube_type = "reduce_time" then some (reduce_time_cube_geom s)
  else if cube_type = "reduce_space" then some (reduce_time_cube_geom s)
  else none

/-- A 2×2 spatial cube with four time steps, used as the concrete input for the
factory-wiring evaluation. -/
def stref_example : cube_st_reference := ⟨2, 2, 0, 3, 1⟩

/-- C1: the claim says a second finite image value `v` hitting a finite cell
updates it to the online mean, so `[1, NaN]` then `[3, 5]` give `[2, 5]`; the
code instead computes `sum = chunk*n + chunk` (src/chunking.cpp:67), never
using `v`, so the cell keeps its first value and the result is `[1, 5]`,
not the claimed `[2, 5]`. -/
theorem mean_aggregation_ignores_later_values :
    mean_aggregate [[some 1, none], [some 3, some 5]] 2 = [some 1, some 5] := by
  norm_num [mean_aggregate, aggregation_state_mean_update, mean_pixel_update,
    aggregation_state_mean_cell.init, List.replicate]

/-- C2: deserializing a `"reduce_space"` node runs the reduce-over-time
constructor (src/unnamed/part_005:67), so on a 2×2 cube with four time steps
the created cube keeps `ny = 2` and collapses time to `nt = 1`, whereas the
spec's reduce-over-space geometry has `ny = 1` and keeps `nt = 4`. -/
theorem reduce_space_factory_builds_reduce_time :
    cube_factory_create_geom "reduce_space" stref_example
        = some (reduce_time_cube_geom stref_example) ∧
      (reduce_time_cube_geom stref_example).ny = 2 ∧
      (reduce_time_cube_geom stref_example).nt = 1 ∧
      (reduce_space_geom_spec stref_example).ny = 1 ∧
      (reduce_space_geom_spec stref_example).nt = 4 := by
  refine ⟨rfl, rfl, ?_, rfl, ?_⟩ <;> decide

/-- C8: the reduce-over-time constructor always sets `t1 := t0` and
`δt := t1 - t0` (src/unnamed/part_000:45-47), so the output has exactly one
time step, and applying it to an already reduced reference keeps the time axis
unchanged (`nt` stays 1, `t0` and `t1` are preserved). -/
theorem reduce_cube_time_axis (s : cube_st_reference) :
    (reduce_cube_ctor s).t1 = s.t0 ∧
      (reduce_cube_ctor s).dt = s.t1 - s.t0 ∧
      (reduce_cube_ctor s).nt = 1 ∧
      (reduce_cube_ctor (reduce_cube_ctor s)).nt = 1 ∧
      (reduce_cube_ctor (reduce_cube_ctor s)).t0 = (reduce_cube_ctor s).t0 ∧
      (reduce_cube_ctor (reduce_cube_ctor s)).t1 = (reduce_cube_ctor s).t1 := by
  refine ⟨rfl, rfl, ?_, ?_, rfl, rfl⟩ <;>
    simp [reduce_cube_ctor, cube_st_reference.nt]

/-! ## Reducer family for reduce-over-space (src/unnamed/part_004:19-340)

Each `*_reducer_singleband_s` computes its result independently per
`(output band, time slot)`. For one slot, `combine` is called once per input
chunk and folds over the chunk's pixels in order, skipping NaN; the whole
init/combine/finalize protocol for one slot is therefore a NaN-skipping fold
over the list of per-chunk pixel streams, followed by the finalize step. -/

/-- Fold `f` over the finite values of one pixel stream, skipping NaN pixels
(the `if (!std::isnan(v))` guard of every `combine`). -/
def nan_fold (f : α → ℚ → α) (a : α) (l : List Val) : α :=
  l.foldl (fun acc v => match v with | none => acc | some q => f acc q) a

/-- Fold `f` over the finite values delivered for one slot by a sequence of
input chunks, chunk by chunk in read order. -/
def finite_fold (f : α → ℚ → α) (a : α) (chunks : List (List Val)) : α :=
  chunks.foldl (fun acc c => nan_fold f acc c) a

/-- Number of finite values a slot receives over the whole chunk sequence. -/
def count_finite (chunks : List (List Val)) : Nat :=
  finite_fold (fun a _ => a + 1) 0 chunks

/-- The sum reducer for one slot: init `0`, combine `acc += v` on finite `v`,
finalize is the identity (src/unnamed/part_004:47-71). -/
def sum_reducer_singleband_s (chunks : List (List Val)) : Val :=
  some (finite_fold (fun a q => a + q) 0 chunks)

/-- The product reducer for one slot: init `1`, combine `acc *= v`
(src/unnamed/part_004:76-100). -/
def prod_reducer_singleband_s (chunks : List (List Val)) : Val :=
  some (finite_fold (fun a q => a * q) 1 chunks)

/-- The count reducer for one slot: init `0`, combine `*w += 1` on finite `v`
(src/unnamed/part_004:210-236); the counter lives in the float64 buffer. -/
def count_reducer_singleband_s (chunks : List (List Val)) : Val :=
  some (finite_fold (fun a _ => a + 1) (0 : ℚ) chunks)

/-- The minimum reducer for one slot: init NaN, adopt the first finite value,
then `*w = std::min(*w, v)` (src/unnamed/part_004:145-174). -/
def min_reducer_singleband_s (chunks : List (List Val)) : Val :=
  finite_fold (fun a q => match a with | none => some q | some m => some (min m q))
    none chunks

/-- The maximum reducer for one slot (src/unnamed/part_004:179-208). -/
def max_reducer_singleband_s (chunks : List (List Val)) : Val :=
  finite_fold (fun a q => match a with | none => some q | some m => some (max m q))
    none chunks

/-- The mean reducer for one slot: accumulate `acc += v` in the output buffer
and `++_count[it]` in the auxiliary counter, then finalize with
`count > 0 ? acc / count : NAN` (src/unnamed/part_004:105-140). -/
def mean_reducer_singleband_s (chunks : List (List Val)) : Val :=
  let p := finite_fold (fun (p : ℚ × Nat) q => (p.1 + q, p.2 + 1)) (0, 0) chunks
  if 0 < p.2 then some (p.1 / (p.2 : ℚ)) else none

/-- State of the Welford online variance recursion for one slot: the running
count, mean, and sum of squared deviations (the chunk buffer cell). -/
structure WelfordState where
  count : Nat
  mean : ℚ
  m2 : ℚ
deriving DecidableEq

/-- One Welford update (src/unnamed/part_004:296-310): `++count`,
`delta = v - mean`, `mean += delta / count`, `acc += delta * (v - mean)`. -/
def welford_step (s : WelfordState) (v : ℚ) : WelfordState :=
  let count := s.count + 1
  let delta := v - s.mean
  let mean := s.mean + delta / (count : ℚ)
  { count := count, mean := mean, m2 := s.m2 + delta * (v - mean) }

/-- Welford state accumulated for one slot over a chunk sequence. -/
def var_state (chunks : List (List Val)) : WelfordState :=
  finite_fold welford_step ⟨0, 0, 0⟩ chunks

/-- The variance reducer's finalize: `count > 1 ? acc / (count - 1) : NAN`
(src/unnamed/part_004:312-319). -/
def var_reducer_singleband_s (chunks : List (List Val)) : Val :=
  let s := var_state chunks
  if 1 < s.count then some (s.m2 / ((s.count - 1 : Nat) : ℚ)) else none

/-- The standard-deviation reducer: same state as `var`, finalize takes
`sqrt(acc / (count - 1))` (src/unnamed/part_004:331-340); the square root is
irrational in general, so the result lives in `ℝ`. -/
noncomputable def sd_reducer_singleband_s (chunks : List (List Val)) : Option ℝ :=
  let s := var_state chunks
  if 1 < s.count then
    some (Real.sqrt ((s.m2 / ((s.count - 1 : Nat) : ℚ) : ℚ) : ℝ))
  else none

/-- The median reducer's bucket for one slot: `combine` pushes every finite
value (src/unnamed/part_004:249-258). -/
def median_collect (chunks : List (List Val)) : List ℚ :=
  finite_fold (fun a q => a ++ [q]) [] chunks

/-- The median reducer's finalize (src/unnamed/part_004:260-272): sort the
bucket; NaN if empty, the middle element if the length is odd, the average of
the two middle elements if even. `std::sort` is modelled by insertion sort. -/
def median_reducer_singleband_s (chunks : List (List Val)) : Val :=
  let l := List.insertionSort (fun a b => a ≤ b) (median_collect chunks)
  if l.length = 0 then none
  else if l.length % 2 = 1 then some (l.getD (l.length / 2) 0)
  else some ((l.getD (l.length / 2) 0 + l.getD (l.length / 2 - 1) 0) / 2)

/-! ### Fold lemmas -/

theorem nan_fold_eq (f : α → ℚ → α) (a : α) (l : List Val) :
    nan_fold f a l = (l.filterMap id).foldl f a := by
  induction l generalizing a with
  | nil => rfl
  | cons h t ih =>
    cases h with
    | none => simpa [nan_fold] using ih a
    | some q => simpa [nan_fold] using ih (f a q)

theorem finite_fold_eq (f : α → ℚ → α) (a : α) (chunks : List (List Val)) :
    finite_fold f a chunks = (chunks.flatten.filterMap id).foldl f a := by
  induction chunks generalizing a with
  | nil => rfl
  | cons c t ih =>
    have h1 : finite_fold f a (c :: t) = finite_fold f (nan_fold f a c) t := rfl
    rw [h1, ih, nan_fold_eq, List.flatten_cons, List.filterMap_append, List.foldl_append]

theorem foldl_nat_count (L : List ℚ) (n : Nat) :
    L.foldl (fun a _ => a + 1) n = n + L.length := by
  induction L generalizing n with
  | nil => simp
  | cons h t ih => simp only [List.foldl_cons, List.length_cons, ih]; omega

theorem count_finite_eq (chunks : List (List Val)) :
    count_finite chunks = (chunks.flatten.filterMap id).length := by
  rw [count_finite, finite_fold_eq, foldl_nat_count]
  omega

theorem foldl_rat_count (L : List ℚ) (c : ℚ) :
    L.foldl (fun a _ => a + 1) c = c + (L.length : ℚ) := by
  induction L generalizing c with
  | nil => simp
  | cons h t ih => simp [ih]; ring

theorem foldl_pair_sum_count (L : List ℚ) (a : ℚ) (n : Nat) :
    L.foldl (fun (p : ℚ × Nat) q => (p.1 + q, p.2 + 1)) (a, n)
      = (L.foldl (fun x q => x + q) a, n + L.length) := by
  induction L generalizing a n with
  | nil => simp
  | cons h t ih => simp [ih]; omega

/-- C5: the mean reducer's slot result is the sum reducer's result divided by
the count reducer's result when at least one finite value arrived, and NaN
when none did. -/
theorem mean_reducer_eq_sum_div_count (chunks : List (List Val)) :
    (0 < count_finite chunks →
      ∃ s c : ℚ, sum_reducer_singleband_s chunks = some s ∧
        count_reducer_singleband_s chunks = some c ∧
        mean_reducer_singleband_s chunks = some (s / c)) ∧
    (count_finite chunks = 0 → mean_reducer_singleband_s chunks = none) := by
  have hcount := count_finite_eq chunks
  constructor
  · intro hpos
    refine ⟨finite_fold (fun a q => a + q) 0 chunks,
      finite_fold (fun a _ => a + 1) (0 : ℚ) chunks, rfl, rfl, ?_⟩
    rw [mean_reducer_singleband_s]
    rw [finite_fold_eq (fun (p : ℚ × Nat) q => (p.1 + q, p.2 + 1)) (0, 0) chunks,
      foldl_pair_sum_count]
    rw [finite_fold_eq (fun a q => a + q) 0 chunks,
      finite_fold_eq (fun a _ => a + 1) (0 : ℚ) chunks, foldl_rat_count]
    simp only [Nat.zero_add, zero_add]
    rw [if_pos (by omega : 0 < (chunks.flatten.filterMap id).length)]
  · intro hzero
    rw [mean_reducer_singleband_s]
    rw [finite_fold_eq (fun (p : ℚ × Nat) q => (p.1 + q, p.2 + 1)) (0, 0) chunks,
      foldl_pair_sum_count]
    simp only
    rw [if_neg (by omega : ¬ 0 < 0 + (chunks.flatten.filterMap id).length)]

/-- Witness for C5 at one slot with finite values `1, 3` (mean `2 = 4 / 2`)
and at an all-NaN slot (mean NaN). -/
theorem mean_reducer_eq_sum_div_count_w :
    (0 < count_finite [[some 1, none], [some 3]] ∧
      ∃ s c : ℚ, sum_reducer_singleband_s [[some 1, none], [some 3]] = some s ∧
        count_reducer_singleband_s [[some 1, none], [some 3]] = some c ∧
        mean_reducer_singleband_s [[some 1, none], [some 3]] = some (s / c)) ∧
    (count_finite [[none, none]] = 0 ∧
      mean_reducer_singleband_s [[none, none]] = none) :=
  ⟨⟨by decide, (mean_reducer_eq_sum_div_count [[some 1, none], [some 3]]).1 (by decide)⟩,
   ⟨by decide, (mean_reducer_eq_sum_div_count [[none, none]]).2 (by decide)⟩⟩

theorem welford_count (L : List ℚ) (s : WelfordState) :
    (L.foldl welford_step s).count = s.count + L.length := by
  induction L generalizing s with
  | nil => simp
  | cons v t ih => simp only [List.foldl_cons, List.length_cons, ih, welford_step]; omega

theorem welford_m2_nonneg (L : List ℚ) (s : WelfordState) (h : 0 ≤ s.m2) :
    0 ≤ (L.foldl welford_step s).m2 := by
  induction L generalizing s with
  | nil => exact h
  | cons v t ih =>
    refine ih (welford_step s v) ?_
    have hd : (welford_step s v).m2
        = s.m2 + (v - s.mean) * (v - (s.mean + (v - s.mean) / ((s.count : ℚ) + 1))) := by
      simp [welford_step]
    have hk : (1 : ℚ) ≤ (s.count : ℚ) + 1 := by
      have := Nat.cast_nonneg (α := ℚ) s.count
      linarith
    have hkpos : (0 : ℚ) < (s.count : ℚ) + 1 := by linarith
    have hfrac : (1 : ℚ) / ((s.count : ℚ) + 1) ≤ 1 := by
      rw [div_le_one hkpos]; exact hk
    have hkey : (v - s.mean) * (v - (s.mean + (v - s.mean) / ((s.count : ℚ) + 1)))
        = (v - s.mean) ^ 2 * (1 - 1 / ((s.count : ℚ) + 1)) := by ring
    have hnn : 0 ≤ (v - s.mean) ^ 2 * (1 - 1 / ((s.count : ℚ) + 1)) :=
      mul_nonneg (sq_nonneg _) (by linarith)
    rw [hd, hkey]
    linarith

theorem var_state_count (chunks : List (List Val)) :
    (var_state chunks).count = count_finite chunks := by
  rw [var_state, finite_fold_eq, count_finite_eq, welford_count]
  simp

theorem var_state_m2_nonneg (chunks : List (List Val)) :
    0 ≤ (var_state chunks).m2 := by
  rw [var_state, finite_fold_eq]
  exact welford_m2_nonneg _ ⟨0, 0, 0⟩ le_rfl

/-- C6: when at least two finite values reach a slot, the sd reducer's result
squared equals the var reducer's result exactly (the embedding computes in
exact arithmetic, so the float tolerance is equality), and with fewer than two
finite values both reducers finalize to NaN. -/
theorem sd_sq_eq_var (chunks : List (List Val)) :
    (2 ≤ count_finite chunks →
      ∃ v : ℚ, var_reducer_singleband_s chunks = some v ∧
        sd_reducer_singleband_s chunks = some (Real.sqrt (v : ℝ)) ∧
        Real.sqrt (v : ℝ) ^ 2 = (v : ℝ)) ∧
    (count_finite chunks < 2 →
      var_reducer_singleband_s chunks = none ∧
        sd_reducer_singleband_s chunks = none) := by
  have hc := var_state_count chunks
  constructor
  · intro h2
    have hlt : 1 < (var_state chunks).count := by omega
    refine ⟨(var_state chunks).m2 / (((var_state chunks).count - 1 : Nat) : ℚ),
      ?_, ?_, ?_⟩
    · rw [var_reducer_singleband_s, if_pos hlt]
    · rw [sd_reducer_singleband_s, if_pos hlt]
    · have hv : 0 ≤ (var_state chunks).m2 / (((var_state chunks).count - 1 : Nat) : ℚ) :=
        div_nonneg (var_state_m2_nonneg chunks) (Nat.cast_nonneg _)
      exact Real.sq_sqrt (by exact_mod_cast hv)
  · intro h2
    have hle : ¬ 1 < (var_state chunks).count := by omega
    exact ⟨by rw [var_reducer_singleband_s, if_neg hle],
      by rw [sd_reducer_singleband_s, if_neg hle]⟩

/-- Witness for C6 with finite values `0, 2` in one slot (variance `2`, sd
`√2`) and a single finite value in another (both reducers NaN). -/
theorem sd_sq_eq_var_w :
    (2 ≤ count_finite [[some 0, some 2]] ∧
      ∃ v : ℚ, var_reducer_singleband_s [[some 0, some 2]] = some v ∧
        sd_reducer_singleband_s [[some 0, some 2]] = some (Real.sqrt (v : ℝ)) ∧
        Real.sqrt (v : ℝ) ^ 2 = (v : ℝ)) ∧
    (count_finite [[some 1]] < 2 ∧
      var_reducer_singleband_s [[some 1]] = none ∧
        sd_reducer_singleband_s [[some 1]] = none) :=
  ⟨⟨by decide, (sd_sq_eq_var [[some 0, some 2]]).1 (by decide)⟩,
   ⟨by decide, (sd_sq_eq_var [[some 1]]).2 (by decide)⟩⟩

theorem foldl_append_singleton (L : List ℚ) (acc : List ℚ) :
    L.foldl (fun a q => a ++ [q]) acc = acc ++ L := by
  induction L generalizing acc with
  | nil => simp
  | cons h t ih => simp [ih]

theorem median_collect_eq (chunks : List (List Val)) :
    median_collect chunks = chunks.flatten.filterMap id := by
  rw [median_collect, finite_fold_eq, foldl_append_singleton, List.nil_append]

/-- C7: the median reducer collects exactly the finite values of the slot
(non-finite inputs are skipped), and its finalize returns NaN for an empty
bucket, the middle element of any sorted arrangement when the bucket size is
odd, and the average of the two middle elements when it is even. -/
theorem median_reducer_sorted_middle (chunks : List (List Val)) (s : List ℚ)
    (hp : s.Perm (median_collect chunks))
    (hs : List.Sorted (fun a b => a ≤ b) s) :
    median_collect chunks = chunks.flatten.filterMap id ∧
    median_reducer_singleband_s chunks =
      (if s.length = 0 then none
       else if s.length % 2 = 1 then some (s.getD (s.length / 2) 0)
       else some ((s.getD (s.length / 2) 0 + s.getD (s.length / 2 - 1) 0) / 2)) := by
  refine ⟨median_collect_eq chunks, ?_⟩
  have hsort : List.insertionSort (fun a b => a ≤ b) (median_collect chunks) = s :=
    List.eq_of_perm_of_sorted
      ((List.perm_insertionSort (fun a b => a ≤ b) (median_collect chunks)).trans hp.symm)
      (List.sorted_insertionSort (fun a b => a ≤ b) (median_collect chunks)) hs
  simp only [median_reducer_singleband_s, hsort]

/-- Witness for C7: finite values `3, 1, 2` arriving over two chunks with a NaN
interspersed; the sorted bucket is `[1, 2, 3]` and the median is `2`. -/
theorem median_reducer_sorted_middle_w :
    median_collect [[some 3, none, some 1], [some 2]] = [3, 1, 2] ∧
      median_reducer_singleband_s [[some 3, none, some 1], [some 2]] = some 2 := by
  have h := median_reducer_sorted_middle [[some 3, none, some 1], [some 2]]
    [1, 2, 3] (by decide) (by decide)
  refine ⟨?_, ?_⟩
  · rw [h.1]; decide
  · rw [h.2]; decide

/-! ## Image-collection source read (src/chunking.cpp:156-395)

`default_chunking::read` queries the catalog, warps every intersecting image to
the chunk grid (delegated to GDAL, an external collaborator), computes the
image's temporal slot, and feeds each warped band plane to the temporal
aggregator selected from the view. The model receives the warp outcome as a
list of `warped_image`s, one per catalog descriptor in catalog order. -/

/-- Aggregation methods of a cube view (`aggregation` in the view header). -/
inductive AggMethod where
  | NONE
  | MEAN
  | MIN
  | MAX
  | MEDIAN
deriving DecidableEq

/-- Aggregator selection of `default_chunking::read` (src/chunking.cpp:243-255):
the `MEDIAN` branch is commented out in the source, so `MEDIAN` falls through
to the final `else` and selects `aggregation_state_none`. -/
def select_aggregation_state (m : AggMethod) : AggMethod :=
  match m with
  | .MEAN => .MEAN
  | .MIN => .MIN
  | .MAX => .MAX
  | _ => .NONE

/-- Per-pixel update of `aggregation_state_min` (src/chunking.cpp:99-109):
skip NaN image pixels, adopt into a NaN cell, else take the minimum. -/
def min_pixel_update (c v : Val) : Val :=
  match v with
  | none => c
  | some vq =>
    match c with
    | none => some vq
    | some cq => some (min cq vq)

/-- Per-pixel update of `aggregation_state_max` (src/chunking.cpp:120-130). -/
def max_pixel_update (c v : Val) : Val :=
  match v with
  | none => c
  | some vq =>
    match c with
    | none => some vq
    | some cq => some (max cq vq)

/-- Apply a per-pixel update across a chunk plane. -/
def plane_zip_update (f : Val → Val → Val) (chunk img : List Val) : List Val :=
  (chunk.zip img).map (fun p => f p.1 p.2)

/-- Dispatch of `agg->update(cbuf, img_buf, b, it)` on the selected aggregation
state for one `(b, t)` cell. `aggregation_state_none::update` is a memcpy of
the image plane (src/chunking.cpp:139-141); the source's direct-RasterIO
shortcut for `aggregation::NONE` (src/chunking.cpp:372-373) writes the same
plane without the intermediate buffer, so it is realized by the same case. -/
def aggregation_state_update (m : AggMethod) (s : aggregation_state_mean_cell)
    (chunk img : List Val) : aggregation_state_mean_cell × List Val :=
  match m with
  | .MEAN => aggregation_state_mean_update s chunk img
  | .MIN => (s, plane_zip_update min_pixel_update chunk img)
  | .MAX => (s, plane_zip_update max_pixel_update chunk img)
  | _ => (s, img)

/-- One warped image of a chunk read: `it` is the temporal slot
`(datetime - chunk.t0) / δt` computed at src/chunking.cpp:361-363, and
`planes` collects, per band of the image, the loop index `b` passed to
`agg->update`, the chunk-buffer band index `band_num - 1`, and the warped
float64 plane (NaN as nodata). -/
structure warped_image where
  it : Nat
  planes : List (Nat × Nat × List Val)

/-- Read a cell of a doubly nested list, with a default. -/
def get2 (l : List (List α)) (i j : Nat) (d : α) : α :=
  (l.getD i []).getD j d

/-- Write a cell of a doubly nested list (no effect out of range). -/
def set2 (l : List (List α)) (i j : Nat) (v : α) : List (List α) :=
  l.set i ((l.getD i []).set j v)

/-- Mutable state of one source chunk read: the band-major chunk buffer and the
mean aggregator's per-`(b,t)` hash-map state. -/
structure source_read_state where
  buf : List (List (List Val))
  mstate : List (List aggregation_state_mean_cell)

/-- Processing of one warped image inside the descriptor loop of
`default_chunking::read` (src/chunking.cpp:368-382): for each band of the
image, read the warped plane and update the chunk cell `(band_num - 1, it)`
through the selected aggregation state. -/
def default_chunking_read_step (method : AggMethod) (st : source_read_state)
    (img : warped_image) : source_read_state :=
  img.planes.foldl (fun st pl =>
    let cplane := get2 st.buf pl.2.1 img.it []
    let mcell := get2 st.mstate pl.1 img.it aggregation_state_mean_cell.init
    let r := aggregation_state_update (select_aggregation_state method) mcell cplane pl.2.2
    ⟨set2 st.buf pl.2.1 img.it r.2, set2 st.mstate pl.1 img.it r.1⟩) st

/-- The body of `default_chunking::read(id)` (src/chunking.cpp:156-395): an out
of range id returns an empty chunk before anything is read (chunkid is
unsigned, so `id < 0` never fires); an empty catalog result returns an empty
chunk; otherwise the calloc-zeroed buffer is folded over the warped images and
the aggregator is finalized (a no-op on the buffer contents). -/
def default_chunking_read (count_chunks nb nt npix : Nat) (method : AggMethod)
    (datasets : List warped_image) (id : Nat) : chunk_data :=
  if count_chunks ≤ id then chunk_data.empty
  else if datasets.isEmpty then chunk_data.empty
  else
    let start : source_read_state :=
      ⟨List.replicate nb (List.replicate nt (List.replicate npix (some 0))),
       List.replicate nb (List.replicate nt aggregation_state_mean_cell.init)⟩
    ⟨(nb, nt, npix), some (datasets.foldl (default_chunking_read_step method) start).buf⟩

/-- C3: the claim says a view with `aggregation_method = median` is rejected at
the image-collection source; in the code the `MEDIAN` branch of the selection
is commented out (src/chunking.cpp:251-253), so a median read silently behaves
exactly like a read under the `none` (last-writer-wins) aggregation and never
fails. -/
theorem median_aggregation_behaves_as_none (count_chunks nb nt npix : Nat)
    (datasets : List warped_image) (id : Nat) :
    select_aggregation_state AggMethod.MEDIAN = AggMethod.NONE ∧
      default_chunking_read count_chunks nb nt npix AggMethod.MEDIAN datasets id
        = default_chunking_read count_chunks nb nt npix AggMethod.NONE datasets id :=
  ⟨rfl, rfl⟩

/-! ## Reduce-over-space read (src/unnamed/part_004:342-410) -/

/-- The upstream cube as seen by `reduce_space_cube::read_chunk`: chunk counts,
spatial size, band names, and the pull interface. -/
structure in_cube where
  count_chunks : Nat
  count_chunks_x : Nat
  count_chunks_y : Nat
  size_y : Nat
  size_x : Nat
  bands : List String
  read_chunk : Nat → chunk_data

/-- Pixel stream of one `(band, time-slot)` plane of an input chunk; an empty
chunk (null buffer) contributes no pixels, matching the `combine` loops that
iterate `b->size()` times. -/
def chunk_plane (c : chunk_data) (b it : Nat) : List Val :=
  match c.buf with
  | none => []
  | some bb => (bb.getD b []).getD it []

/-- Reducer dispatch of `reduce_space_cube::read_chunk`
(src/unnamed/part_004:364-385) for the rational-valued reducers; the source
also dispatches `"sd"`, whose square-root result is irrational and is modelled
separately by `sd_reducer_singleband_s` over `ℝ`. Unknown names yield `none`
(the source throws). -/
def reducer_by_name (n : String) : Option (List (List Val) → Val) :=
  if n = "min" then some min_reducer_singleband_s
  else if n = "max" then some max_reducer_singleband_s
  else if n = "mean" then some mean_reducer_singleband_s
  else if n = "median" then some median_reducer_singleband_s
  else if n = "sum" then some sum_reducer_singleband_s
  else if n = "count" then some count_reducer_singleband_s
  else if n = "prod" then some prod_reducer_singleband_s
  else if n = "var" then some var_reducer_singleband_s
  else none

/-- The body of `reduce_space_cube::read_chunk(id)`
(src/unnamed/part_004:342-410), parameterized by the reducer interpretation
`interp` (a family assigning each reducer name its slot-level semantics, cf.
`reducer_by_name`): out-of-range ids return an empty chunk; if the input cube
is already spatially reduced (`size_y == 1 && size_x == 1`) the input chunk is
returned unchanged; otherwise each configured reducer is constructed (unknown
names throw), every input chunk with the same `ct` is read and combined, and
finalize produces one value per `(output band, time slot)`. -/
def reduce_space_read_chunk (inc : in_cube)
    (interp : String → Option (List (List Val) → Val))
    (reducer_bands : List (String × String))
    (count_chunks_out : Nat) (cs_t : Nat) (id : Nat) : Except String chunk_data :=
  if count_chunks_out ≤ id then .ok chunk_data.empty
  else if inc.size_y = 1 ∧ inc.size_x = 1 then .ok (inc.read_chunk id)
  else
    match reducer_bands.mapM
        (fun rb => (interp rb.1).map (fun r => (r, inc.bands.indexOf rb.2))) with
    | none => .error "ERROR in reduce_time_cube::read_chunk(): Unknown reducer given"
    | some rs =>
      let n := inc.count_chunks_x * inc.count_chunks_y
      let ids := List.range' (id * n) n
      let buf := rs.map (fun ri =>
        (List.range cs_t).map (fun it =>
          [ri.1 (ids.map (fun i => chunk_plane (inc.read_chunk i) ri.2 it))]))
      .ok ⟨(rs.length, cs_t, 1), some buf⟩

/-- C4: for an id at or beyond the chunk count, both the image-collection
source (src/chunking.cpp:158-159) and the reduce-over-space operator
(src/unnamed/part_004:345-346) return an empty chunk instead of raising; the
chunk id type is unsigned, so ids below zero do not exist. -/
theorem read_chunk_out_of_range_empty
    (cc nb nt npix : Nat) (m : AggMethod) (ds : List warped_image) (id1 : Nat)
    (inc : in_cube) (interp : String → Option (List (List Val) → Val))
    (rb : List (String × String)) (cco cst id2 : Nat)
    (h1 : cc ≤ id1) (h2 : cco ≤ id2) :
    default_chunking_read cc nb nt npix m ds id1 = chunk_data.empty ∧
      reduce_space_read_chunk inc interp rb cco cst id2 = .ok chunk_data.empty := by
  constructor
  · rw [default_chunking_read, if_pos h1]
  · rw [reduce_space_read_chunk, if_pos h2]

/-- Witness for C4: a source with 6 chunks asked for chunk 6, and a
reduce-over-space cube with 4 chunks asked for chunk 9. -/
theorem read_chunk_out_of_range_empty_w :
    6 ≤ (6 : Nat) ∧ 4 ≤ (9 : Nat) ∧
      default_chunking_read 6 2 3 4 AggMethod.MEAN [] 6 = chunk_data.empty ∧
      reduce_space_read_chunk ⟨8, 2, 2, 5, 5, ["B1"], fun _ => chunk_data.empty⟩
          reducer_by_name [("mean", "B1")] 4 3 9 = .ok chunk_data.empty :=
  ⟨by decide, by decide,
    read_chunk_out_of_range_empty 6 2 3 4 AggMethod.MEAN [] 6
      ⟨8, 2, 2, 5, 5, ["B1"], fun _ => chunk_data.empty⟩
      reducer_by_name [("mean", "B1")] 4 3 9 (by decide) (by decide)⟩

/-- C9: when the input cube is already spatially reduced (`size_y = 1` and
`size_x = 1`), `reduce_space_cube::read_chunk` returns the input chunk for the
same id unchanged (src/unnamed/part_004:348-351), bypassing the configured
reducers entirely — for every reducer interpretation and reducer/band list. -/
theorem reduce_space_read_chunk_bypass (inc : in_cube)
    (interp : String → Option (List (List Val) → Val))
    (rb : List (String × String)) (cco cst id : Nat)
    (h1 : id < cco) (h2 : inc.size_y = 1) (h3 : inc.size_x = 1) :
    reduce_space_read_chunk inc interp rb cco cst id = .ok (inc.read_chunk id) := by
  rw [reduce_space_read_chunk, if_neg (by omega), if_pos ⟨h2, h3⟩]

/-- Witness for C9: a 1×1 input cube whose chunks are nonempty single-pixel
buffers, with a reducer list that would otherwise change the band count. -/
theorem reduce_space_read_chunk_bypass_w :
    reduce_space_read_chunk
        ⟨4, 1, 1, 1, 1, ["B1"],
          fun i => ⟨(1, 1, 1), some [[[some (i : ℚ)]]]⟩⟩
        reducer_by_name [("mean", "B1"), ("count", "B1")] 4 1 2
      = .ok ⟨(1, 1, 1), some [[[some (2 : ℚ)]]]⟩ :=
  reduce_space_read_chunk_bypass
    ⟨4, 1, 1, 1, 1, ["B1"], fun i => ⟨(1, 1, 1), some [[[some (i : ℚ)]]]⟩⟩
    reducer_by_name [("mean", "B1"), ("count", "B1")] 4 1 2
    (by decide) rfl rfl

/-! ## Vector queries (src/vector_queries.cpp:7-114)

`vector_queries::query_points` validates its inputs, maps every query point to
the chunk containing it, and then reads each needed chunk once. The model
tracks, besides the thrown-or-returned outcome, the list of chunk ids actually
passed to `read_chunk`, so that "no chunk is read" is a provable statement. -/

/-- The slice of the cube interface `query_points` relies on:
`find_chunk_that_contains` is part of the cube interface (cube.h is external
to the modelled sources) and is kept abstract as a per-cube function from a
query point `(x, y, t)` to a chunk id. -/
structure query_cube where
  count_chunks : Nat
  find_chunk_that_contains : ℚ × ℚ × String → Nat
  read_chunk : Nat → chunk_data

/-- Outcome of a `query_points` call: the chunk ids read, in `std::map`
iteration order, and either the thrown error message or normal completion. -/
structure query_outcome where
  reads : List Nat
  result : Except String Unit

/-- Control flow of `vector_queries::query_points`
(src/vector_queries.cpp:10-92): the three validations throw in order — length
mismatch, empty vectors, null cube pointer — before anything touches the cube;
afterwards every point is assigned a chunk id, and each distinct id below
`count_chunks` is read exactly once, in ascending id order (`std::map` keys).
The per-band value extraction from the read buffers is not modelled. -/
def vector_queries_query_points (cube : Option query_cube)
    (x y : List ℚ) (t : List String) : query_outcome :=
  if x.length ≠ y.length ∨ y.length ≠ t.length then
    ⟨[], .error "Point coordinate vectors x, y, t must have identical length"⟩
  else if x.isEmpty then
    ⟨[], .error "Point coordinate vectors x, y, t must have length > 0"⟩
  else
    match cube with
    | none => ⟨[], .error "Invalid data cube pointer"⟩
    | some c =>
      let ids := (List.range x.length).map
        (fun i => c.find_chunk_that_contains (x.getD i 0, y.getD i 0, t.getD i ""))
      let reads := (List.insertionSort (fun a b => a ≤ b) ids.dedup).filter
        (fun i => i < c.count_chunks)
      ⟨reads, .ok ()⟩

/-- C10: whenever the coordinate vectors differ in length, or are empty, or
the cube pointer is null, `query_points` throws one of its validation errors
and no chunk is ever read. -/
theorem query_points_validation (cube : Option query_cube)
    (x y : List ℚ) (t : List String)
    (h : x.length ≠ y.length ∨ y.length ≠ t.length ∨ x = [] ∨ cube = none) :
    (∃ msg, (vector_queries_query_points cube x y t).result = .error msg) ∧
      (vector_queries_query_points cube x y t).reads = [] := by
  rw [vector_queries_query_points.eq_def]
  by_cases h1 : x.length ≠ y.length ∨ y.length ≠ t.length
  · rw [if_pos h1]
    exact ⟨⟨_, rfl⟩, rfl⟩
  · rw [if_neg h1]
    by_cases h2 : x.isEmpty
    · rw [if_pos h2]
      exact ⟨⟨_, rfl⟩, rfl⟩
    · rw [if_neg h2]
      have hcube : cube = none := by
        rcases h with h | h | h | h
        · exact absurd (Or.inl h) h1
        · exact absurd (Or.inr h) h1
        · exact absurd (by simp [h]) h2
        · exact h
      rw [hcube]
      exact ⟨⟨_, rfl⟩, rfl⟩

/-- Witness for C10: one point with a null cube pointer. -/
theorem query_points_validation_w :
    (∃ msg, (vector_queries_query_points none [1] [2] ["2018-01-01"]).result
        = .error msg) ∧
      (vector_queries_query_points none [1] [2] ["2018-01-01"]).reads = [] :=
  query_points_validation none [1] [2] ["2018-01-01"]
    (Or.inr (Or.inr (Or.inr rfl)))

end GdalCubes
